import Mathlib

/-!
Verification development for the von Mises-Fisher distribution module
(tensorflow_probability/python/distributions/von_mises_fisher.py).

The floating-point tensor arithmetic of the source is embedded shallowly
over the real numbers, one batch element at a time.  Fallible code paths
(Python raises, `tf.check_numerics`, assertion ops) are modelled with
`Except String`.  A separate small domain `FP` with an explicit non-finite
element is used for the claims about finiteness checking, where the exact
real model is too coarse.
-/

namespace VonMisesFisher

/-- Modified Bessel function of the first kind of order 0, via its power
series; this is the mathematical function computed by `tf.math.bessel_i0e`
before exponential scaling. -/
noncomputable def besselI0 (z : ℝ) : ℝ :=
  tsum fun n : ℕ => (z / 2) ^ (2 * n) / ((Nat.factorial n : ℝ)) ^ 2

/-- Modified Bessel function of the first kind of order 1, via its power
series. -/
noncomputable def besselI1 (z : ℝ) : ℝ :=
  tsum fun n : ℕ =>
    (z / 2) ^ (2 * n + 1) / ((Nat.factorial n : ℝ) * (Nat.factorial (n + 1) : ℝ))

/-- Model of `tf.math.bessel_i0e`: `I0(z) * exp(-|z|)`. -/
noncomputable def bessel_i0e (z : ℝ) : ℝ := besselI0 z * Real.exp (-|z|)

/-- Model of `tf.math.bessel_i1e`: `I1(z) * exp(-|z|)`. -/
noncomputable def bessel_i1e (z : ℝ) : ℝ := besselI1 z * Real.exp (-|z|)

/-- Model of the source lambda `sinhe`: `sinh(x)*exp(-abs(x))` written as
`(exp(x - |x|) - exp(-x - |x|)) / 2`, exactly as in the source. -/
noncomputable def sinhe (x : ℝ) : ℝ :=
  (Real.exp (x - |x|) - Real.exp (-x - |x|)) / 2

/-- Model of the source lambda `coshe`: `cosh(x)*exp(-abs(x))` written as
`(exp(x - |x|) + exp(-x - |x|)) / 2`, exactly as in the source. -/
noncomputable def coshe (x : ℝ) : ℝ :=
  (Real.exp (x - |x|) + Real.exp (-x - |x|)) / 2

/-- Shallow embedding of `_bessel_ive(v, z)` over the reals.  The order `v`
is a rational (the program only ever uses half-integers).  Python-level
`raise ValueError` for `v >= 2` and the dictionary `KeyError` that a
non-cached order `<= 1` would produce are modelled as `Except.error`.
Over the reals every value is finite, so the unconditional
`tf.check_numerics` wrapper is the identity here (it is modelled
explicitly in the `FP` development below).  The factor
`tf.where(z > 0, tf.rsqrt(safe_z), tf.ones_like(safe_z))` with
`safe_z = tf.where(z > 0, z, 1)` is `if 0 < z then (sqrt z)⁻¹ else 1`. -/
noncomputable def bessel_ive (v : ℚ) (z : ℝ) : Except String ℝ :=
  if 2 ≤ v then
    .error "Evaluating bessel_i by recurrence becomes imprecise for large v"
  else if v = 0 then .ok (bessel_i0e z)
  else if v = 1 then .ok (bessel_i1e z)
  else if v = 1/2 then
    .ok (Real.sqrt (2 / Real.pi) * sinhe z * (if 0 < z then (Real.sqrt z)⁻¹ else 1))
  else if v = -1/2 then
    .ok (Real.sqrt (2 / Real.pi) * coshe z * (if 0 < z then (Real.sqrt z)⁻¹ else 1))
  else if v ≤ 1 then .error "uncached bessel order"
  else do
    let a ← bessel_ive (v - 2) z
    let b ← bessel_ive (v - 1) z
    .ok (a - ((2 * (v - 1) : ℚ) : ℝ) * b / z)
termination_by ⌈v⌉.toNat
decreasing_by
  all_goals
    rename_i h2 _ _ _ _ h1
    have hv1 : (1 : ℚ) < v := lt_of_not_le h1
    have hv2 : v < 2 := lt_of_not_le h2
    have hc1 : (1 : ℤ) < ⌈v⌉ := Int.lt_ceil.mpr (by exact_mod_cast hv1)
    have hc2 : ⌈v⌉ ≤ 2 := Int.ceil_le.mpr (by exact_mod_cast hv2.le)
    have e2 : ⌈v - 2⌉ = ⌈v⌉ - 2 := by
      rw [show (v - 2 : ℚ) = v - ((2 : ℤ) : ℚ) by norm_num, Int.ceil_sub_int]
    have e1 : ⌈v - 1⌉ = ⌈v⌉ - 1 := by
      rw [show (v - 1 : ℚ) = v - ((1 : ℤ) : ℚ) by norm_num, Int.ceil_sub_int]
    simp only [e1, e2]
    omega

/-- Batched inner product of two coordinate lists, the per-element view of
`tf.reduce_sum(samples * bcast_mean_dir, -1)` (the broadcasting addition of
`tf.zeros_like(concentration)[..., tf.newaxis]` is the identity on each
batch element). -/
def listDot (a b : List ℝ) : ℝ := (List.zipWith (fun x y => x * y) a b).sum

/-- Model of `_log_unnormalized_prob` on one batch element: the
concentration times the inner product of the sample with the mean
direction (sample validation is a no-op when `validate_args` is off and
does not change the value otherwise). -/
def log_unnormalized_prob (mean_direction x : List ℝ) (concentration : ℝ) : ℝ :=
  concentration * listDot x mean_direction

/-- Model of `_log_normalization` on one batch element with static event
dimension `event_dim`.  `safe_conc = tf.where(conc > 0, conc, 1)`;
`tf.lgamma` at the positive argument `event_dim / 2` is `log (Gamma _)`.
The Bessel evaluation participates in the graph (and can raise) even for
batch elements whose concentration is zero. -/
noncomputable def log_normalization (event_dim : ℕ) (concentration : ℝ) :
    Except String ℝ := do
  let safe_conc : ℝ := if 0 < concentration then concentration else 1
  let bess ← bessel_ive ((event_dim : ℚ) / 2 - 1) safe_conc
  let safe_lognorm : ℝ :=
    ((event_dim : ℝ) / 2 - 1) * Real.log safe_conc -
      ((event_dim : ℝ) / 2) * Real.log (2 * Real.pi) -
      Real.log bess - |safe_conc|
  let log_nsphere_surface_area : ℝ :=
    Real.log 2 + ((event_dim : ℝ) / 2) * Real.log Real.pi -
      Real.log (Real.Gamma ((event_dim : ℝ) / 2))
  pure (if 0 < concentration then -safe_lognorm else log_nsphere_surface_area)

/-- Model of `_log_prob` on one batch element: the unnormalized log
probability minus `_log_normalization`. -/
noncomputable def log_prob (mean_direction x : List ℝ) (concentration : ℝ) :
    Except String ℝ := do
  let n ← log_normalization mean_direction.length concentration
  pure (log_unnormalized_prob mean_direction x concentration - n)

/-- Model of `_mean` on one batch element: the mean direction scaled by the
ratio of scaled Bessel values at orders `event_dim/2` and
`event_dim/2 - 1` (evaluated at `safe_conc`), with the result forced to
the zero vector where the concentration is not positive.  The
numerator-order evaluation happens first, as in the source expression. -/
noncomputable def vmf_mean (mean_direction : List ℝ) (concentration : ℝ) :
    Except String (List ℝ) := do
  let safe_conc : ℝ := if 0 < concentration then concentration else 1
  let num ← bessel_ive ((mean_direction.length : ℚ) / 2) safe_conc
  let den ← bessel_ive ((mean_direction.length : ℚ) / 2 - 1) safe_conc
  let safe_mean := mean_direction.map (fun m => m * (num / den))
  pure (if 0 < concentration then safe_mean else mean_direction.map (fun _ => (0 : ℝ)))

/-- Modified Bessel function of the first kind at the orders the spec
claims mention, written from the spec side for refinement comparison:
integer orders via the power series above, half-integer orders via their
classical closed forms. -/
noncomputable def besselI (v : ℚ) (z : ℝ) : ℝ :=
  if v = 0 then besselI0 z
  else if v = 1 then besselI1 z
  else if v = 1/2 then Real.sqrt (2 / (Real.pi * z)) * Real.sinh z
  else if v = -1/2 then Real.sqrt (2 / (Real.pi * z)) * Real.cosh z
  else if v = 3/2 then Real.sqrt (2 / (Real.pi * z)) * (Real.cosh z - Real.sinh z / z)
  else 0

/-- Model of `__init__` argument handling on one batch element:
`mean_direction` of statically known event dimension, scalar
`concentration`.  The Python `raise ValueError` for more than five event
dimensions is unconditional; the three `tf.Assert` ops (non-negative
concentration, non-scalar event shape, unit-length mean direction) exist
only when `validate_args` is set, and are modelled in list order.
`tf.assert_near` uses a 10-ulp style tolerance `assertNearTol`. -/
noncomputable def assertNearTol : ℝ := 10 * (2 : ℝ) ^ (-(23 : ℤ))

noncomputable def vmf_init (mean_direction : List ℝ) (concentration : ℝ)
    (validate_args : Bool) : Except String Unit :=
  if 5 < mean_direction.length then
    .error "vMF ndims > 5 is not currently supported"
  else if validate_args then
    if concentration < 0 then .error "concentration must be non-negative"
    else if ¬ 1 < mean_direction.length then
      .error "mean_direction may not have scalar event shape"
    else if ¬ |1 - Real.sqrt (listDot mean_direction mean_direction)| ≤
        assertNearTol * (1 + Real.sqrt (listDot mean_direction mean_direction)) then
      .error "mean_direction must be unit-length"
    else .ok ()
  else .ok ()

/-- Inner product of two vectors given as functions on `Fin n`, the
per-batch-element view of `tf.reduce_sum(x * y, axis=-1)`. -/
def dotF {n : ℕ} (f g : Fin n → ℝ) : ℝ := ∑ i, f i * g i

/-- Default epsilon of `tf.nn.l2_normalize`. -/
noncomputable def l2eps : ℝ := 1 / 10 ^ 12

/-- Model of `tf.nn.l2_normalize(x, axis=-1)`:
`x * rsqrt(max(sum(x*x), epsilon))` with the default `epsilon = 1e-12`. -/
noncomputable def l2_normalize {n : ℕ} (x : Fin n → ℝ) : Fin n → ℝ :=
  fun i => x i * (Real.sqrt (max (dotF x x) l2eps))⁻¹

/-- The basis vector `[1, 0, ..., 0]` used by `_rotate` and the sampler. -/
def basisE1 (n : ℕ) : Fin n → ℝ := fun i => if (i : ℕ) = 0 then 1 else 0

/-- The vector `basis - mean_direction` whose normalization is the
Householder direction of `_rotate`. -/
def houseVec {n : ℕ} (mean_direction : Fin n → ℝ) : Fin n → ℝ :=
  fun i => basisE1 n i - mean_direction i

/-- Model of `_rotate` on one batch element:
`u = tf.nn.l2_normalize(basis - mean_direction)` and
`samples - 2 * reduce_sum(samples * u, -1, keepdims=True) * u`. -/
noncomputable def vmf_rotate {n : ℕ} (mean_direction v : Fin n → ℝ) : Fin n → ℝ :=
  let u := l2_normalize (houseVec mean_direction)
  fun i => v i - 2 * dotF v u * u i

/-- Model of the sample assembly of `_sample_n`:
`tf.concat([samples_dim0, sqrt(max(1 - samples_dim0**2, 0)) * unit_otherdims])`
where `unit_otherdims = tf.nn.l2_normalize(normal_draws, axis=-1)`. -/
noncomputable def assembleSample {d : ℕ} (u0 : ℝ) (g : Fin d → ℝ) :
    Fin (d + 1) → ℝ :=
  Fin.cons u0 (fun i => Real.sqrt (max (1 - u0 ^ 2) 0) * l2_normalize g i)

/-- Model of the tail of `_sample_n` on one batch element with the
numerics checks disabled (`allow_nan_stats = True`, the default): assemble
the sample from the cosine coordinate `u0` and the raw normal draws `g`,
renormalize to unit length, and rotate to the mean direction. -/
noncomputable def finishSample {d : ℕ} (mean_direction : Fin (d + 1) → ℝ)
    (u0 : ℝ) (g : Fin d → ℝ) : Fin (d + 1) → ℝ :=
  vmf_rotate mean_direction (l2_normalize (assembleSample u0 g))

/-- Model of `tf.log1p`. -/
noncomputable def log1p (x : ℝ) : ℝ := Real.log (1 + x)

/-- Model of `tf.reduce_logsumexp` over a pair. -/
noncomputable def logsumexp2 (a b : ℝ) : ℝ := Real.log (Real.exp a + Real.exp b)

/-- Model of the cosine coordinate computed by `_sample_3d` from one
uniform draw `z` for one batch element: `safe_conc` and `safe_z` guard the
positive branches, the `kappa -> 0` limit `2z - 1` is selected where the
concentration is not positive, and the `z = 0` correction to `-1` is
applied last. -/
noncomputable def sample3d_u (concentration z : ℝ) : ℝ :=
  let safe_conc : ℝ := if 0 < concentration then concentration else 1
  let safe_z : ℝ := if 0 < z then z else 1
  let safe_u : ℝ :=
    1 + logsumexp2 (Real.log safe_z) (log1p (-safe_z) - 2 * safe_conc) / safe_conc
  let u : ℝ := if 0 < concentration then safe_u else 2 * z - 1
  if z = 0 then -1 else u

/-- Value domain for the finiteness-checking claims: a finite real or a
non-finite value (NaN or an infinity).  Arithmetic propagates non-finite
operands to non-finite results; a division by zero and the logarithm of a
non-positive number also produce non-finite results.  This abstraction is
exactly what `tf.check_numerics` distinguishes. -/
inductive FP where
  | fin : ℝ → FP
  | nonfin : FP

def fpAdd : FP → FP → FP
  | .fin a, .fin b => .fin (a + b)
  | _, _ => .nonfin

def fpSub : FP → FP → FP
  | .fin a, .fin b => .fin (a - b)
  | _, _ => .nonfin

def fpMul : FP → FP → FP
  | .fin a, .fin b => .fin (a * b)
  | _, _ => .nonfin

noncomputable def fpDiv : FP → FP → FP
  | .fin a, .fin b => if b = 0 then .nonfin else .fin (a / b)
  | _, _ => .nonfin

def fpNeg : FP → FP
  | .fin a => .fin (-a)
  | .nonfin => .nonfin

noncomputable def fpLog : FP → FP
  | .fin a => if a ≤ 0 then .nonfin else .fin (Real.log a)
  | .nonfin => .nonfin

noncomputable def fpLog1p : FP → FP
  | .fin a => if a ≤ -1 then .nonfin else .fin (Real.log (1 + a))
  | .nonfin => .nonfin

/-- Comparison used by the acceptance test; comparisons against a
non-finite value behave like NaN comparisons and yield `false`. -/
noncomputable def fpLt : FP → FP → Bool
  | .fin a, .fin b => decide (a < b)
  | _, _ => false

/-- Model of `tf.check_numerics(x, msg)`: the identity on finite values,
an error on non-finite ones.  The source applies it unconditionally inside
`_bessel_ive` and inside the rejection-loop body, and conditionally (under
`not allow_nan_stats`) elsewhere. -/
def checkNumerics (x : FP) (msg : String) : Except String FP :=
  match x with
  | .fin r => .ok (.fin r)
  | .nonfin => .error msg

/-- Model of one iteration of `body_fn` in the rejection sampler for one
batch lane.  `b`, `x`, `c`, `dim` and the concentration are the loop
constants; `z` is the Beta draw and `uDraw` the uniform draw of this
iteration.  The candidate `w` replaces the old one only on lanes that
should continue, then `tf.check_numerics(w, 'w')` runs unconditionally,
then the acceptance test updates `should_continue`. -/
noncomputable def rejectionBodyStep (concentration dim b x c : FP)
    (z uDraw : FP) (w : FP) (should_continue : Bool) :
    Except String (FP × Bool) := do
  let cand := fpDiv (fpSub (.fin 1) (fpMul (fpAdd (.fin 1) b) z))
                    (fpSub (.fin 1) (fpMul (fpSub (.fin 1) b) z))
  let w1 := if should_continue then cand else w
  let w2 ← checkNumerics w1 "w"
  let accept_lhs :=
    fpSub (fpAdd (fpMul concentration w2) (fpMul dim (fpLog1p (fpNeg (fpMul x w2))))) c
  pure (w2, should_continue && fpLt accept_lhs (fpLog uDraw))

/-- Model of the `u = tf.check_numerics(u, 'u in _sample_3d')` step of
`_sample_3d`, which the source guards with `if not self._allow_nan_stats`. -/
def sample3d_check_u (allow_nan_stats : Bool) (u : FP) : Except String FP :=
  if ¬ allow_nan_stats then checkNumerics u "u in _sample_3d" else .ok u

/-- FP-domain model of `tf.math.bessel_i0e`: finite in, finite out;
non-finite in, non-finite out. -/
noncomputable def bessel_i0e_fp : FP → FP
  | .fin r => .fin (bessel_i0e r)
  | .nonfin => .nonfin

noncomputable def bessel_i1e_fp : FP → FP
  | .fin r => .fin (bessel_i1e r)
  | .nonfin => .nonfin

noncomputable def fpExp : FP → FP
  | .fin r => .fin (Real.exp r)
  | .nonfin => .nonfin

def fpAbs : FP → FP
  | .fin r => .fin |r|
  | .nonfin => .nonfin

noncomputable def fpRsqrt : FP → FP
  | .fin r => if r ≤ 0 then .nonfin else .fin (Real.sqrt r)⁻¹
  | .nonfin => .nonfin

/-- Where-guard `tf.where(z > 0, ...)` on the FP domain: a non-finite
comparison is `false`, as for NaN. -/
noncomputable def fpPos : FP → Bool
  | .fin r => decide (0 < r)
  | .nonfin => false

noncomputable def sinhe_fp (x : FP) : FP :=
  fpDiv (fpSub (fpExp (fpSub x (fpAbs x))) (fpExp (fpSub (fpNeg x) (fpAbs x)))) (.fin 2)

noncomputable def coshe_fp (x : FP) : FP :=
  fpDiv (fpAdd (fpExp (fpSub x (fpAbs x))) (fpExp (fpSub (fpNeg x) (fpAbs x)))) (.fin 2)

/-- FP-domain model of `_bessel_ive`, with the unconditional
`tf.check_numerics(result, 'besseli...')` wrapper on every return path.
The structure mirrors `bessel_ive` above. -/
noncomputable def bessel_ive_fp (v : ℚ) (z : FP) : Except String FP :=
  let safe_z := if fpPos z then z else .fin 1
  let rsqrtFactor := if fpPos z then fpRsqrt safe_z else .fin 1
  if 2 ≤ v then
    .error "Evaluating bessel_i by recurrence becomes imprecise for large v"
  else if v = 0 then checkNumerics (bessel_i0e_fp z) "besseli0"
  else if v = 1 then checkNumerics (bessel_i1e_fp z) "besseli1"
  else if v = 1/2 then
    checkNumerics (fpMul (fpMul (.fin (Real.sqrt (2 / Real.pi))) (sinhe_fp z)) rsqrtFactor)
      "besseli0.5"
  else if v = -1/2 then
    checkNumerics (fpMul (fpMul (.fin (Real.sqrt (2 / Real.pi))) (coshe_fp z)) rsqrtFactor)
      "besseli-0.5"
  else if v ≤ 1 then .error "uncached bessel order"
  else do
    let a ← bessel_ive_fp (v - 2) z
    let b ← bessel_ive_fp (v - 1) z
    checkNumerics (fpSub a (fpDiv (fpMul (.fin ((2 * (v - 1) : ℚ) : ℝ)) b) z))
      "besseli1.5"
termination_by ⌈v⌉.toNat
decreasing_by
  all_goals
    rename_i h2 _ _ _ _ h1
    have hv1 : (1 : ℚ) < v := lt_of_not_le h1
    have hv2 : v < 2 := lt_of_not_le h2
    have hc1 : (1 : ℤ) < ⌈v⌉ := Int.lt_ceil.mpr (by exact_mod_cast hv1)
    have hc2 : ⌈v⌉ ≤ 2 := Int.ceil_le.mpr (by exact_mod_cast hv2.le)
    have e2 : ⌈v - 2⌉ = ⌈v⌉ - 2 := by
      rw [show (v - 2 : ℚ) = v - ((2 : ℤ) : ℚ) by norm_num, Int.ceil_sub_int]
    have e1 : ⌈v - 1⌉ = ⌈v⌉ - 1 := by
      rw [show (v - 1 : ℚ) = v - ((1 : ℤ) : ℚ) by norm_num, Int.ceil_sub_int]
    simp only [e1, e2]
    omega

/-- Modelled from the spec: the `seed_stream` module
(`tensorflow_probability.python.distributions.seed_stream`) is not under
`src/`.  Per the spec, a `SeedStream(seed, salt)` is a deterministic,
call-local stream whose i-th invocation yields a sub-seed determined by
`(seed, salt, i)`, and no two invocations share a sub-seed.  Creating a
stream from an existing stream reuses the original seed with the new
salt. -/
structure SeedStream where
  seed : ℕ
  salt : String

/-- Sub-seed produced by the i-th invocation of the stream. -/
def SeedStream.subSeed (s : SeedStream) (i : ℕ) : ℕ × String × ℕ :=
  (s.seed, s.salt, i)

/-- End-to-end model of `sample(1, seed)` for the 3-dimensional inversion
sampler, one batch element, default flags.  `uniformDraw` and
`normalDraw` are the deterministic random kernels keyed by sub-seed (the
normal kernel fills a whole tensor from one sub-seed, hence the extra
index).  `_sample_n` opens the outer stream with salt
`vom_mises_fisher`, `_sample_3d` derives the inner one with salt
`von_mises_fisher_3d` and spends its first sub-seed on the uniform draw;
the outer stream spends its first sub-seed on the normal draw. -/
noncomputable def vmf_sample3d (seed : ℕ)
    (uniformDraw : ℕ × String × ℕ → ℝ)
    (normalDraw : ℕ × String × ℕ → ℕ → ℝ)
    (concentration : ℝ) (mean_direction : Fin 3 → ℝ) : Fin 3 → ℝ :=
  let outer : SeedStream := ⟨seed, "vom_mises_fisher"⟩
  let inner : SeedStream := ⟨seed, "von_mises_fisher_3d"⟩
  let z := uniformDraw (inner.subSeed 0)
  let u0 := sample3d_u concentration z
  let g : Fin 2 → ℝ := fun j => normalDraw (outer.subSeed 0) j
  finishSample mean_direction u0 g

/-- The sub-seeds consumed by one call of the 3-dimensional sampler, in
consumption order; this list depends only on the seed, not on any drawn
value. -/
def vmf_sample3d_consumedSubSeeds (seed : ℕ) : List (ℕ × String × ℕ) :=
  [(SeedStream.mk seed "von_mises_fisher_3d").subSeed 0,
   (SeedStream.mk seed "vom_mises_fisher").subSeed 0]

@[simp] lemma okBind {ε α β : Type} (a : α) (f : α → Except ε β) :
    (Except.ok a : Except ε α) >>= f = f a := rfl

@[simp] lemma errBind {ε α β : Type} (e : ε) (f : α → Except ε β) :
    (Except.error e : Except ε α) >>= f = .error e := rfl

/-- On positive arguments the source expression `sinhe` is the scaled
hyperbolic sine `sinh x * exp (-x)`. -/
lemma sinhe_eq_of_pos {x : ℝ} (hx : 0 < x) :
    sinhe x = Real.sinh x * Real.exp (-x) := by
  have habs : |x| = x := abs_of_pos hx
  have hmul : Real.exp x * Real.exp (-x) = 1 := by
    rw [← Real.exp_add]; simp
  unfold sinhe
  rw [habs, Real.sinh_eq, show (-x - x : ℝ) = -x + -x by ring, Real.exp_add,
    sub_self, Real.exp_zero]
  nlinarith [hmul]

/-- On positive arguments the source expression `coshe` is the scaled
hyperbolic cosine `cosh x * exp (-x)`. -/
lemma coshe_eq_of_pos {x : ℝ} (hx : 0 < x) :
    coshe x = Real.cosh x * Real.exp (-x) := by
  have habs : |x| = x := abs_of_pos hx
  have hmul : Real.exp x * Real.exp (-x) = 1 := by
    rw [← Real.exp_add]; simp
  unfold coshe
  rw [habs, Real.cosh_eq, show (-x - x : ℝ) = -x + -x by ring, Real.exp_add,
    sub_self, Real.exp_zero]
  nlinarith [hmul]

/-- Claim C9: in the 3-D inversion sampler, a batch element with zero
concentration gets the uniform cosine `2z - 1`, and wherever the uniform
draw is exactly zero the cosine is exactly `-1`, the `z = 0` rule being
applied last. -/
theorem claim_C9 (concentration z : ℝ) (hz0 : 0 ≤ z) (hz1 : z < 1) :
    (concentration = 0 → sample3d_u concentration z = 2 * z - 1) ∧
    (z = 0 → sample3d_u concentration z = -1) := by
  constructor
  · intro hc
    subst hc
    by_cases hz : z = 0
    · subst hz; norm_num [sample3d_u]
    · simp [sample3d_u, hz]
  · intro hz
    subst hz
    simp [sample3d_u]

theorem claim_C9_witness :
    (0 : ℝ) ≤ 1/2 ∧ (1/2 : ℝ) < 1 ∧ sample3d_u 0 (1/2) = 2 * (1/2) - 1 :=
  ⟨by norm_num, by norm_num,
    (claim_C9 0 (1/2) (by norm_num) (by norm_num)).1 rfl⟩

/-- Claim C4, counterexample: a one-dimensional event shape (`D = 1 < 2`)
with validation off constructs successfully, so the `D < 2` error is not
raised regardless of strict mode. -/
theorem claim_C4_counterexample : vmf_init [1] 0 false = .ok () := by
  simp [vmf_init]

/-- Claim C4, amended: the `D > 5` error is raised unconditionally at
construction, but the `D < 2` check lives in the `validate_args`-gated
assertion list: with validation on (and a non-negative concentration) a
scalar event shape is rejected, while with validation off any `D ≤ 5`
constructs successfully. -/
theorem claim_C4_amended (mean_direction : List ℝ) (concentration : ℝ)
    (validate_args : Bool) :
    (5 < mean_direction.length →
      vmf_init mean_direction concentration validate_args =
        .error "vMF ndims > 5 is not currently supported") ∧
    (validate_args = true → mean_direction.length ≤ 5 →
      mean_direction.length < 2 → 0 ≤ concentration →
      vmf_init mean_direction concentration validate_args =
        .error "mean_direction may not have scalar event shape") ∧
    (validate_args = false → mean_direction.length ≤ 5 →
      vmf_init mean_direction concentration validate_args = .ok ()) := by
  refine ⟨fun h => ?_, fun hv h5 h2 hc => ?_, fun hv h5 => ?_⟩
  · unfold vmf_init
    rw [if_pos h]
  · subst hv
    unfold vmf_init
    rw [if_neg (by omega), if_pos rfl, if_neg (not_lt.mpr hc),
      if_pos (by omega)]
  · subst hv
    unfold vmf_init
    rw [if_neg (by omega)]
    simp

theorem claim_C4_amended_witness :
    vmf_init [1, 1, 1, 1, 1, 1] 0 false =
      .error "vMF ndims > 5 is not currently supported" ∧
    vmf_init [(1 : ℝ)] 0 true =
      .error "mean_direction may not have scalar event shape" :=
  ⟨(claim_C4_amended [1, 1, 1, 1, 1, 1] 0 false).1 (by norm_num),
   (claim_C4_amended [(1 : ℝ)] 0 true).2.1 rfl (by norm_num) (by norm_num)
     (by norm_num)⟩

/-- Claim C5, counterexample: at order `1/2`, the evaluator returns `0`
for `z = 0` (the hyperbolic factor is evaluated at the raw `z`, not at the
replaced value), which differs from its value at `z = 1`. -/
theorem claim_C5_counterexample : bessel_ive (1/2) 0 ≠ bessel_ive (1/2) 1 := by
  have h0 : bessel_ive (1/2) 0 = .ok 0 := by
    rw [bessel_ive.eq_def]
    norm_num [sinhe]
  have hexp : Real.exp (-2) < 1 := by
    have h := Real.exp_lt_exp.mpr (show (-2 : ℝ) < 0 by norm_num)
    rwa [Real.exp_zero] at h
  have h1 : bessel_ive (1/2) 1 =
      .ok (Real.sqrt (2 / Real.pi) * ((1 - Real.exp (-2)) / 2)) := by
    rw [bessel_ive.eq_def]
    norm_num [sinhe, Real.sqrt_one]
  rw [h0, h1]
  intro h
  have hval : (0 : ℝ) = Real.sqrt (2 / Real.pi) * ((1 - Real.exp (-2)) / 2) := by
    simpa using h
  have hpos : 0 < Real.sqrt (2 / Real.pi) * ((1 - Real.exp (-2)) / 2) := by
    have h1 : 0 < Real.sqrt (2 / Real.pi) :=
      Real.sqrt_pos.mpr (by positivity)
    have h2 : 0 < (1 - Real.exp (-2)) / 2 := by linarith
    exact mul_pos h1 h2
  linarith [hval, hpos]

/-- Claim C5, amended: for entries `z ≤ 0` only the reciprocal-square-root
factor is replaced by `1`; the remaining factors (the hyperbolic
expressions for half-integer orders, the scaled-Bessel primitives for
orders 0 and 1) are evaluated at the raw `z`, so the result at `z ≤ 0` is
not in general the value at `z = 1`. -/
theorem claim_C5_amended (z : ℝ) (hz : z ≤ 0) :
    bessel_ive 0 z = .ok (bessel_i0e z) ∧
    bessel_ive 1 z = .ok (bessel_i1e z) ∧
    bessel_ive (1/2) z = .ok (Real.sqrt (2 / Real.pi) * sinhe z) ∧
    bessel_ive (-1/2) z = .ok (Real.sqrt (2 / Real.pi) * coshe z) := by
  have hnot : ¬ 0 < z := not_lt.mpr hz
  refine ⟨?_, ?_, ?_, ?_⟩
  · rw [bessel_ive.eq_def]; norm_num
  · rw [bessel_ive.eq_def]; norm_num
  · rw [bessel_ive.eq_def]; norm_num [hnot]
  · rw [bessel_ive.eq_def]; norm_num [hnot]

theorem claim_C5_amended_witness :
    (-1 : ℝ) ≤ 0 ∧
    bessel_ive (1/2) (-1) = .ok (Real.sqrt (2 / Real.pi) * sinhe (-1)) :=
  ⟨by norm_num, (claim_C5_amended (-1) (by norm_num)).2.2.1⟩

lemma fpMul_nonfin_right (a : FP) : fpMul a FP.nonfin = FP.nonfin := by
  cases a <;> rfl

lemma fpDiv_nonfin_left (b : FP) : fpDiv FP.nonfin b = FP.nonfin := by
  cases b <;> rfl

/-- Claim C3, counterexample: a non-finite Bessel value is rejected by the
unconditional `tf.check_numerics` wrapper inside `_bessel_ive`; the
function does not consult `allow_nan_stats` at all, so the error is raised
even in the default `allow_nan_stats = True` configuration. -/
theorem claim_C3_counterexample :
    bessel_ive_fp 0 FP.nonfin = .error "besseli0" := by
  rw [bessel_ive_fp.eq_def]
  norm_num [bessel_i0e_fp, checkNumerics, fpPos]

/-- Claim C3, amended: the finiteness checks on the Bessel value and on
the rejection-loop candidate `w` are unconditional — they raise regardless
of `allow_nan_stats` (neither `_bessel_ive` nor `body_fn` takes the flag) —
while the check on the sampled cosine in `_sample_3d` is gated: with
`allow_nan_stats = True` a non-finite `u` passes through silently, with
`allow_nan_stats = False` it raises. -/
theorem claim_C3_amended (z : FP) (hz : z = FP.nonfin) :
    bessel_ive_fp 0 z = .error "besseli0" ∧
    (∀ conc dim b x c uD w,
      rejectionBodyStep conc dim b x c z uD w true = .error "w") ∧
    sample3d_check_u true FP.nonfin = .ok FP.nonfin ∧
    sample3d_check_u false FP.nonfin = .error "u in _sample_3d" := by
  subst hz
  refine ⟨?_, fun conc dim b x c uD w => ?_, rfl, rfl⟩
  · rw [bessel_ive_fp.eq_def]
    norm_num [bessel_i0e_fp, checkNumerics, fpPos]
  · unfold rejectionBodyStep
    simp [fpMul_nonfin_right, fpDiv_nonfin_left, fpSub, checkNumerics]

theorem claim_C3_amended_witness :
    bessel_ive_fp 0 FP.nonfin = .error "besseli0" ∧
    rejectionBodyStep (.fin 1) (.fin 3) (.fin (1/3)) (.fin (1/2)) (.fin 0)
      FP.nonfin (.fin (1/2)) (.fin 0) true = .error "w" :=
  ⟨(claim_C3_amended FP.nonfin rfl).1,
   (claim_C3_amended FP.nonfin rfl).2.1 (.fin 1) (.fin 3) (.fin (1/3))
     (.fin (1/2)) (.fin 0) (.fin (1/2)) (.fin 0)⟩

/-- Claim C10: the sampling pipeline is deterministic in its seed — with
the random kernels fixed, equal seeds produce equal outputs — and the
sub-seeds consumed by one call (one per requested draw, in a fixed order
that does not depend on any drawn value) are pairwise distinct.
The seed-stream mechanics are modelled from the spec because the
`seed_stream` module is not part of the provided source. -/
theorem claim_C10 (seed1 seed2 : ℕ)
    (uniformDraw : ℕ × String × ℕ → ℝ)
    (normalDraw : ℕ × String × ℕ → ℕ → ℝ)
    (concentration : ℝ) (mean_direction : Fin 3 → ℝ)
    (h : seed1 = seed2) :
    vmf_sample3d seed1 uniformDraw normalDraw concentration mean_direction =
      vmf_sample3d seed2 uniformDraw normalDraw concentration mean_direction ∧
    (vmf_sample3d_consumedSubSeeds seed1).Nodup := by
  subst h
  refine ⟨rfl, ?_⟩
  simp [vmf_sample3d_consumedSubSeeds, SeedStream.subSeed]

theorem claim_C10_witness :
    vmf_sample3d 7 (fun _ => 1/2) (fun _ _ => 1) 2 (basisE1 3) =
      vmf_sample3d 7 (fun _ => 1/2) (fun _ _ => 1) 2 (basisE1 3) ∧
    (vmf_sample3d_consumedSubSeeds 7).Nodup :=
  claim_C10 7 7 (fun _ => 1/2) (fun _ _ => 1) 2 (basisE1 3) rfl

lemma bessel_ive_0 (z : ℝ) : bessel_ive 0 z = .ok (bessel_i0e z) := by
  rw [bessel_ive.eq_def]; norm_num

lemma bessel_ive_1 (z : ℝ) : bessel_ive 1 z = .ok (bessel_i1e z) := by
  rw [bessel_ive.eq_def]; norm_num

lemma bessel_ive_half (z : ℝ) :
    bessel_ive (1/2) z =
      .ok (Real.sqrt (2 / Real.pi) * sinhe z *
        (if 0 < z then (Real.sqrt z)⁻¹ else 1)) := by
  rw [bessel_ive.eq_def]; norm_num

lemma bessel_ive_neg_half (z : ℝ) :
    bessel_ive (-1/2) z =
      .ok (Real.sqrt (2 / Real.pi) * coshe z *
        (if 0 < z then (Real.sqrt z)⁻¹ else 1)) := by
  rw [bessel_ive.eq_def]; norm_num

/-- One unfolding of the recurrence branch of `_bessel_ive` for orders
strictly between 1 and 2 (the only ones that reach it without an error). -/
lemma bessel_ive_rec (v : ℚ) (h1 : 1 < v) (h2 : v < 2) (z : ℝ) :
    bessel_ive v z = (do
      let a ← bessel_ive (v - 2) z
      let b ← bessel_ive (v - 1) z
      Except.ok (a - ((2 * (v - 1) : ℚ) : ℝ) * b / z)) := by
  rw [bessel_ive.eq_def]
  rw [if_neg (not_le.mpr h2), if_neg (by rintro rfl; norm_num at h1),
    if_neg (by rintro rfl; norm_num at h1), if_neg (by rintro rfl; norm_num at h1),
    if_neg (by rintro rfl; norm_num at h1), if_neg (not_le.mpr h1)]

lemma bessel_ive_three_half (z : ℝ) :
    bessel_ive (3/2) z =
      .ok ((Real.sqrt (2 / Real.pi) * coshe z *
            (if 0 < z then (Real.sqrt z)⁻¹ else 1)) -
        1 * (Real.sqrt (2 / Real.pi) * sinhe z *
            (if 0 < z then (Real.sqrt z)⁻¹ else 1)) / z) := by
  rw [bessel_ive_rec (3/2) (by norm_num) (by norm_num)]
  rw [show (3/2 - 2 : ℚ) = -1/2 by norm_num, show (3/2 - 1 : ℚ) = 1/2 by norm_num,
    bessel_ive_neg_half, bessel_ive_half]
  norm_num

/-- The Bessel evaluator succeeds at the orders `event_dim/2 - 1` arising
for the supported dimensions. -/
lemma bessel_ive_lognorm_ok (D : ℕ) (h2 : 2 ≤ D) (h5 : D ≤ 5) (z : ℝ) :
    ∃ r, bessel_ive ((D : ℚ)/2 - 1) z = .ok r := by
  interval_cases D
  · exact ⟨_, by rw [show ((2:ℕ) : ℚ)/2 - 1 = 0 by norm_num]; exact bessel_ive_0 z⟩
  · exact ⟨_, by rw [show ((3:ℕ) : ℚ)/2 - 1 = 1/2 by norm_num]; exact bessel_ive_half z⟩
  · exact ⟨_, by rw [show ((4:ℕ) : ℚ)/2 - 1 = 1 by norm_num]; exact bessel_ive_1 z⟩
  · exact ⟨_, by rw [show ((5:ℕ) : ℚ)/2 - 1 = 3/2 by norm_num]; exact bessel_ive_three_half z⟩

/-- At zero concentration the log-normalizer takes the hypersphere branch
whatever the (successful) Bessel value is. -/
lemma log_normalization_at_zero (D : ℕ) (r : ℝ)
    (hb : bessel_ive ((D : ℚ)/2 - 1) 1 = .ok r) :
    log_normalization D 0 =
      .ok (Real.log 2 + ((D : ℝ)/2) * Real.log Real.pi -
        Real.log (Real.Gamma ((D : ℝ)/2))) := by
  unfold log_normalization
  norm_num [hb]

lemma log_nsphere_val (D : ℕ) (hD : 0 < D) :
    Real.log (2 * Real.pi ^ ((D : ℝ)/2) / Real.Gamma ((D : ℝ)/2)) =
      Real.log 2 + ((D : ℝ)/2) * Real.log Real.pi -
        Real.log (Real.Gamma ((D : ℝ)/2)) := by
  have hhalf : (0 : ℝ) < (D : ℝ)/2 := by
    have : (0 : ℝ) < (D : ℝ) := by exact_mod_cast hD
    linarith
  have hΓ : 0 < Real.Gamma ((D : ℝ)/2) := Real.Gamma_pos_of_pos hhalf
  have hp : (0 : ℝ) < Real.pi ^ ((D : ℝ)/2) := Real.rpow_pos_of_pos Real.pi_pos _
  rw [Real.log_div (by positivity) hΓ.ne', Real.log_mul two_ne_zero hp.ne',
    Real.log_rpow Real.pi_pos]

/-- Claim C6: at zero concentration the log probability is the same for
every sample `x` and equals the negative log of the hypersphere surface
area, `-log (2 pi^(D/2) / Gamma (D/2))`, whose value involves only the
log-gamma branch (the Bessel value does not enter it). -/
theorem claim_C6 (mean_direction x : List ℝ)
    (h2 : 2 ≤ mean_direction.length) (h5 : mean_direction.length ≤ 5) :
    log_prob mean_direction x 0 =
      .ok (-Real.log (2 * Real.pi ^ ((mean_direction.length : ℝ)/2) /
        Real.Gamma ((mean_direction.length : ℝ)/2))) := by
  obtain ⟨r, hb⟩ := bessel_ive_lognorm_ok mean_direction.length h2 h5 1
  unfold log_prob
  rw [log_normalization_at_zero _ r hb]
  simp only [okBind, log_unnormalized_prob, zero_mul]
  rw [log_nsphere_val _ (by omega)]
  norm_num
  rfl

theorem claim_C6_witness :
    log_prob [0, 1, 0] [1, 0, 0] 0 =
      .ok (-Real.log (2 * Real.pi ^ ((3 : ℝ)/2) / Real.Gamma ((3 : ℝ)/2))) := by
  have h := claim_C6 [0, 1, 0] [1, 0, 0] (by norm_num) (by norm_num)
  simpa using h

lemma besselI_half_one : besselI (1/2) 1 = Real.sqrt (2 / Real.pi) * Real.sinh 1 := by
  unfold besselI
  norm_num

/-- Evaluation of the scenario `D = 3`, `mu = [0,1,0]`, `kappa = 1`,
`x = [1,0,0]`: the code returns `safe_lognorm` itself (the unnormalized
term is 0 and `_log_normalization` returns `-safe_lognorm`). -/
lemma c1_eval : log_prob [0, 1, 0] [1, 0, 0] 1 =
    .ok ((1/2) * Real.log 1 - (3/2) * Real.log (2 * Real.pi) -
      Real.log (Real.sqrt (2 / Real.pi) * sinhe 1) - 1) := by
  have hb : bessel_ive (1/2 : ℚ) 1 =
      .ok (Real.sqrt 2 / Real.sqrt Real.pi * sinhe 1) := by
    rw [bessel_ive_half, Real.sqrt_div (by norm_num : (0:ℝ) ≤ 2)]
    norm_num [Real.sqrt_one]
  unfold log_prob log_normalization
  norm_num [log_unnormalized_prob, listDot, hb, Real.sqrt_div]

lemma c1_bracket_val :
    (1/2) * Real.log 1 - (3/2) * Real.log (2 * Real.pi) -
      Real.log (besselI (1/2) 1 * Real.exp (-1)) - 1 =
    -Real.log (4 * Real.pi * Real.sinh 1) := by
  have hsinh : (0 : ℝ) < Real.sinh 1 := Real.sinh_pos_iff.mpr one_pos
  have hsq : (0 : ℝ) < Real.sqrt (2 / Real.pi) :=
    Real.sqrt_pos.mpr (by positivity)
  rw [besselI_half_one,
    Real.log_mul (ne_of_gt (mul_pos hsq hsinh)) (Real.exp_ne_zero _),
    Real.log_mul hsq.ne' hsinh.ne', Real.log_exp,
    Real.log_sqrt (by positivity),
    Real.log_div two_ne_zero (ne_of_gt Real.pi_pos),
    Real.log_mul (by positivity : (4 * Real.pi : ℝ) ≠ 0) hsinh.ne',
    Real.log_mul (by norm_num : (4 : ℝ) ≠ 0) (ne_of_gt Real.pi_pos),
    Real.log_mul two_ne_zero (ne_of_gt Real.pi_pos), Real.log_one,
    show (4 : ℝ) = 2 ^ 2 by norm_num, Real.log_pow]
  push_cast
  ring

lemma c1_bracket_neg : -Real.log (4 * Real.pi * Real.sinh 1) < 0 := by
  have hs : (1 : ℝ) < Real.sinh 1 := Real.self_lt_sinh_iff.mpr one_pos
  have h1 : (1 : ℝ) < 4 * Real.pi * Real.sinh 1 := by
    nlinarith [Real.pi_gt_three]
  have := Real.log_pos h1
  linarith

/-- Claim C1, counterexample: in the scenario `D = 3`, `mu = [0,1,0]`,
`kappa = 1`, `x = [1,0,0]`, the log probability is NOT the negation of the
bracket `(0.5) log 1 - 1.5 log (2 pi) - log (I_half(1) exp (-1)) - 1`:
the code returns the bracket itself (which is negative), not its
negation. -/
theorem claim_C1_counterexample :
    log_prob [0, 1, 0] [1, 0, 0] 1 ≠
      .ok (-((1/2) * Real.log 1 - (3/2) * Real.log (2 * Real.pi) -
        Real.log (besselI (1/2) 1 * Real.exp (-1)) - 1)) := by
  have hs : besselI (1/2) 1 * Real.exp (-1) = Real.sqrt (2 / Real.pi) * sinhe 1 := by
    rw [besselI_half_one, sinhe_eq_of_pos (by norm_num : (0 : ℝ) < 1)]
    ring
  rw [c1_eval, ← hs]
  intro h
  have hval := Except.ok.inj h
  rw [c1_bracket_val] at hval
  have := c1_bracket_neg
  linarith [hval, this]

/-- Claim C1, amended: the log probability in the scenario equals the
bracket itself, `(0.5) log 1 - 1.5 log (2 pi) - log (I_half(1) exp(-1)) - 1`
(equivalently `-log (4 pi sinh 1)`), and the scaled Bessel value the
code uses agrees exactly (hence within `1e-6`) with the closed form
`I_half(1) exp(-1)`. -/
theorem claim_C1_amended :
    log_prob [0, 1, 0] [1, 0, 0] 1 =
      .ok ((1/2) * Real.log 1 - (3/2) * Real.log (2 * Real.pi) -
        Real.log (besselI (1/2) 1 * Real.exp (-1)) - 1) ∧
    (1/2) * Real.log 1 - (3/2) * Real.log (2 * Real.pi) -
        Real.log (besselI (1/2) 1 * Real.exp (-1)) - 1 =
      -Real.log (4 * Real.pi * Real.sinh 1) ∧
    |Real.sqrt (2 / Real.pi) * sinhe 1 - besselI (1/2) 1 * Real.exp (-1)| ≤
      1 / 10 ^ 6 := by
  have hs : besselI (1/2) 1 * Real.exp (-1) = Real.sqrt (2 / Real.pi) * sinhe 1 := by
    rw [besselI_half_one, sinhe_eq_of_pos (by norm_num : (0 : ℝ) < 1)]
    ring
  refine ⟨?_, c1_bracket_val, ?_⟩
  · rw [hs]
    exact c1_eval
  · rw [hs]
    norm_num

lemma dotF_smul_self {n : ℕ} (x : Fin n → ℝ) (c : ℝ) :
    dotF (fun i => x i * c) (fun i => x i * c) = dotF x x * c ^ 2 := by
  unfold dotF
  have h : ∀ i : Fin n, (x i * c) * (x i * c) = (x i * x i) * c ^ 2 :=
    fun i => by ring
  simp_rw [h]
  rw [← Finset.sum_mul]

lemma dotF_const_mul {n : ℕ} (x : Fin n → ℝ) (c : ℝ) :
    dotF (fun i => c * x i) (fun i => c * x i) = c ^ 2 * dotF x x := by
  unfold dotF
  have h : ∀ i : Fin n, (c * x i) * (c * x i) = c ^ 2 * (x i * x i) :=
    fun i => by ring
  simp_rw [h]
  rw [← Finset.mul_sum]

lemma dotF_sub_mul_left {n : ℕ} (v u : Fin n → ℝ) (c : ℝ) :
    dotF (fun i => v i - c * u i) u = dotF v u - c * dotF u u := by
  unfold dotF
  rw [Finset.mul_sum, ← Finset.sum_sub_distrib]
  exact Finset.sum_congr rfl fun i _ => by ring

lemma dotF_sub_mul_self {n : ℕ} (v u : Fin n → ℝ) (c : ℝ) :
    dotF (fun i => v i - c * u i) (fun i => v i - c * u i) =
      dotF v v - 2 * c * dotF v u + c ^ 2 * dotF u u := by
  unfold dotF
  rw [Finset.mul_sum, Finset.mul_sum, ← Finset.sum_sub_distrib,
    ← Finset.sum_add_distrib]
  exact Finset.sum_congr rfl fun i _ => by ring

/-- When the squared norm reaches the epsilon, `l2_normalize` returns an
exactly unit vector. -/
lemma l2_normalize_dot {n : ℕ} (x : Fin n → ℝ) (h : l2eps ≤ dotF x x) :
    dotF (l2_normalize x) (l2_normalize x) = 1 := by
  have hpos : 0 < dotF x x := lt_of_lt_of_le (by norm_num [l2eps]) h
  unfold l2_normalize
  rw [dotF_smul_self, max_eq_left h, inv_pow, Real.sq_sqrt hpos.le]
  exact mul_inv_cancel₀ hpos.ne'

/-- A Householder reflection with a unit (or zero) direction is an
involution. -/
lemma house_invol {n : ℕ} (u v : Fin n → ℝ)
    (hu : dotF u u = 1 ∨ u = fun _ => 0) :
    (fun i => (fun j => v j - 2 * dotF v u * u j) i -
      2 * dotF (fun j => v j - 2 * dotF v u * u j) u * u i) = v := by
  rcases hu with hu | hu
  · have hL := dotF_sub_mul_left v u (2 * dotF v u)
    rw [hu] at hL
    funext i
    rw [hL]
    ring
  · funext i
    rw [hu]
    simp [dotF]

/-- A Householder reflection with a unit (or zero) direction preserves the
squared norm. -/
lemma house_dot_self {n : ℕ} (u x : Fin n → ℝ)
    (hu : dotF u u = 1 ∨ u = fun _ => 0) :
    dotF (fun i => x i - 2 * dotF x u * u i)
      (fun i => x i - 2 * dotF x u * u i) = dotF x x := by
  rcases hu with hu | hu
  · rw [dotF_sub_mul_self, hu]
    ring
  · rw [hu]
    simp [dotF]

lemma houseU_unit_or_zero {n : ℕ} (mean_direction : Fin n → ℝ)
    (h : l2eps ≤ dotF (houseVec mean_direction) (houseVec mean_direction) ∨
      houseVec mean_direction = fun _ => 0) :
    dotF (l2_normalize (houseVec mean_direction))
        (l2_normalize (houseVec mean_direction)) = 1 ∨
      l2_normalize (houseVec mean_direction) = fun _ => 0 := by
  rcases h with h | h
  · exact Or.inl (l2_normalize_dot _ h)
  · refine Or.inr ?_
    funext i
    unfold l2_normalize
    rw [h]
    simp

/-- Claim C7, amended: the rotation is an involution for every vector `v`
and every mean direction whose difference from `e1` is exactly zero or has
squared norm at least the `l2_normalize` epsilon `1e-12`; for unit mean
directions strictly inside that epsilon ball (but distinct from `e1`) the
normalizer returns a non-unit Householder direction and the double
reflection is not the identity. -/
theorem claim_C7_amended {n : ℕ} (mean_direction v : Fin n → ℝ)
    (h : l2eps ≤ dotF (houseVec mean_direction) (houseVec mean_direction) ∨
      houseVec mean_direction = fun _ => 0) :
    vmf_rotate mean_direction (vmf_rotate mean_direction v) = v :=
  house_invol (l2_normalize (houseVec mean_direction)) v
    (houseU_unit_or_zero mean_direction h)

/-- Claim C8, amended: with a non-degenerate normal draw
(`sum g_i^2 >= 1e-12`) and a mean direction whose difference from `e1` is
zero or has squared norm at least `1e-12`, every assembled, renormalized
and rotated sample has exactly unit Euclidean norm, in particular within
`1e-4`; for unit mean directions strictly inside the epsilon ball of `e1`
the rotation is not an isometry and the final norm can deviate by more
than `1e-4`. -/
theorem claim_C8_amended {d : ℕ} (mean_direction : Fin (d + 1) → ℝ)
    (u0 : ℝ) (g : Fin d → ℝ) (hg : l2eps ≤ dotF g g)
    (hm : l2eps ≤ dotF (houseVec mean_direction) (houseVec mean_direction) ∨
      houseVec mean_direction = fun _ => 0) :
    |Real.sqrt (dotF (finishSample mean_direction u0 g)
        (finishSample mean_direction u0 g)) - 1| ≤ 1 / 10 ^ 4 := by
  have hcons : dotF (assembleSample u0 g) (assembleSample u0 g) =
      u0 * u0 + max (1 - u0 ^ 2) 0 := by
    unfold assembleSample dotF
    rw [Fin.sum_univ_succ]
    simp only [Fin.cons_zero, Fin.cons_succ]
    have hrw : (∑ i : Fin d, Real.sqrt (max (1 - u0 ^ 2) 0) * l2_normalize g i *
        (Real.sqrt (max (1 - u0 ^ 2) 0) * l2_normalize g i)) =
        Real.sqrt (max (1 - u0 ^ 2) 0) ^ 2 * dotF (l2_normalize g) (l2_normalize g) := by
      rw [show (fun i => Real.sqrt (max (1 - u0 ^ 2) 0) * l2_normalize g i *
          (Real.sqrt (max (1 - u0 ^ 2) 0) * l2_normalize g i)) =
          fun i : Fin d => Real.sqrt (max (1 - u0 ^ 2) 0) ^ 2 *
            (l2_normalize g i * l2_normalize g i) from funext fun i => by ring]
      rw [← Finset.mul_sum]
      rfl
    rw [hrw, l2_normalize_dot g hg, mul_one,
      Real.sq_sqrt (le_max_right (1 - u0 ^ 2) 0)]
  have hge1 : (1 : ℝ) ≤ u0 * u0 + max (1 - u0 ^ 2) 0 := by
    rcases le_or_lt (1 - u0 ^ 2) 0 with hle | hlt
    · rw [max_eq_right hle]
      nlinarith
    · rw [max_eq_left hlt.le]
      nlinarith
  have h2 : l2eps ≤ dotF (assembleSample u0 g) (assembleSample u0 g) := by
    rw [hcons]
    have : l2eps ≤ (1 : ℝ) := by norm_num [l2eps]
    linarith
  have h3 : dotF (l2_normalize (assembleSample u0 g))
      (l2_normalize (assembleSample u0 g)) = 1 := l2_normalize_dot _ h2
  have h5 : dotF (finishSample mean_direction u0 g)
      (finishSample mean_direction u0 g) =
      dotF (l2_normalize (assembleSample u0 g))
        (l2_normalize (assembleSample u0 g)) :=
    house_dot_self (l2_normalize (houseVec mean_direction))
      (l2_normalize (assembleSample u0 g)) (houseU_unit_or_zero mean_direction hm)
  rw [h5, h3, Real.sqrt_one]
  norm_num

lemma vmf_rotate_apply {n : ℕ} (mean_direction v : Fin n → ℝ) (i : Fin n) :
    vmf_rotate mean_direction v i =
      v i - 2 * dotF v (l2_normalize (houseVec mean_direction)) *
        l2_normalize (houseVec mean_direction) i := rfl

theorem claim_C7_amended_witness :
    vmf_rotate (![0, 1] : Fin 2 → ℝ) (vmf_rotate ![0, 1] ![5, 7]) = ![5, 7] :=
  claim_C7_amended (![0, 1] : Fin 2 → ℝ) ![5, 7]
    (Or.inl (by norm_num [dotF, houseVec, basisE1, Fin.sum_univ_succ,
      Fin.sum_univ_zero, l2eps]))

theorem claim_C8_amended_witness :
    |Real.sqrt (dotF (finishSample (![0, 1] : Fin 2 → ℝ) (1/2) ![1])
        (finishSample (![0, 1] : Fin 2 → ℝ) (1/2) ![1])) - 1| ≤ 1 / 10 ^ 4 :=
  claim_C8_amended (![0, 1] : Fin 2 → ℝ) (1/2) ![1]
    (by norm_num [dotF, Fin.sum_univ_succ, Fin.sum_univ_zero, l2eps])
    (Or.inl (by norm_num [dotF, houseVec, basisE1, Fin.sum_univ_succ,
      Fin.sum_univ_zero, l2eps]))

/-- A unit mean direction strictly inside the `1e-12` epsilon ball of the
basis vector `e1` (at squared distance `4 / (10^14 + 1)`, about
`4e-14`): the rational point on the unit circle with parameter
`t = 1e-7`. -/
noncomputable def muNearE1 : Fin 2 → ℝ :=
  ![(10 ^ 14 - 1) / (10 ^ 14 + 1), 2 * 10 ^ 7 / (10 ^ 14 + 1)]

lemma houseVec_muNearE1 :
    houseVec muNearE1 = ![2 / (10 ^ 14 + 1), -(2 * 10 ^ 7) / (10 ^ 14 + 1)] := by
  funext i
  fin_cases i <;> norm_num [houseVec, basisE1, muNearE1]

lemma dot_houseVec_muNearE1 :
    dotF (houseVec muNearE1) (houseVec muNearE1) = 4 / (10 ^ 14 + 1) := by
  rw [houseVec_muNearE1]
  norm_num [dotF, Fin.sum_univ_two]

/-- Inside the epsilon ball, `l2_normalize` divides by `sqrt 1e-12 = 1e-6`
instead of the true norm, yielding a non-unit Householder direction. -/
lemma l2_normalize_houseVec_muNearE1 :
    l2_normalize (houseVec muNearE1) =
      ![2 * 10 ^ 6 / (10 ^ 14 + 1), -(2 * 10 ^ 13) / (10 ^ 14 + 1)] := by
  have hmax : max (dotF (houseVec muNearE1) (houseVec muNearE1)) l2eps = l2eps := by
    rw [dot_houseVec_muNearE1]
    exact max_eq_right (by norm_num [l2eps])
  have hsq : Real.sqrt l2eps = 1 / 10 ^ 6 := by
    rw [show l2eps = ((1 : ℝ) / 10 ^ 6) ^ 2 by norm_num [l2eps]]
    exact Real.sqrt_sq (by norm_num)
  funext i
  unfold l2_normalize
  rw [hmax, hsq, houseVec_muNearE1]
  fin_cases i <;> norm_num

/-- Claim C7, counterexample: for the valid (exactly unit) mean direction
`muNearE1`, applying the rotation twice to `e1` does not return `e1`. -/
theorem claim_C7_counterexample :
    dotF muNearE1 muNearE1 = 1 ∧
    vmf_rotate muNearE1 (vmf_rotate muNearE1 (basisE1 2)) ≠ basisE1 2 := by
  constructor
  · norm_num [dotF, muNearE1, Fin.sum_univ_two]
  · have hrot1 : vmf_rotate muNearE1 (basisE1 2) =
        ![1 - 8 * 10 ^ 12 / (10 ^ 14 + 1) ^ 2,
          8 * 10 ^ 19 / (10 ^ 14 + 1) ^ 2] := by
      funext i
      rw [vmf_rotate_apply, l2_normalize_houseVec_muNearE1]
      have hd : dotF (basisE1 2)
          ![2 * 10 ^ 6 / (10 ^ 14 + 1), -(2 * 10 ^ 13) / (10 ^ 14 + 1)] =
          2 * 10 ^ 6 / (10 ^ 14 + 1) := by
        norm_num [dotF, Fin.sum_univ_two, basisE1]
      rw [hd]
      fin_cases i <;> norm_num [basisE1]
    intro hcontra
    have h1 := congrFun hcontra 1
    rw [hrot1, vmf_rotate_apply, l2_normalize_houseVec_muNearE1] at h1
    have hd2 : dotF
        ![1 - 8 * 10 ^ 12 / (10 ^ 14 + 1) ^ 2, 8 * 10 ^ 19 / (10 ^ 14 + 1) ^ 2]
        ![2 * 10 ^ 6 / (10 ^ 14 + 1), -(2 * 10 ^ 13) / (10 ^ 14 + 1)] =
        2 * 10 ^ 6 / (10 ^ 14 + 1) - 16 * 10 ^ 18 / (10 ^ 14 + 1) ^ 2 := by
      norm_num [dotF, Fin.sum_univ_two]
    rw [hd2] at h1
    norm_num [basisE1] at h1

/-- Claim C8, counterexample: with the valid unit mean direction
`muNearE1`, the pre-rotation sample `[0, -1]` (cosine `0`, normal draw
`-1`) is exactly unit, but the rotation through the non-unit Householder
direction shrinks it: the final norm misses 1 by more than `1e-4`. -/
theorem claim_C8_counterexample :
    dotF muNearE1 muNearE1 = 1 ∧
    ¬ |Real.sqrt (dotF (finishSample muNearE1 0 ![(-1 : ℝ)])
        (finishSample muNearE1 0 ![(-1 : ℝ)])) - 1| ≤ 1 / 10 ^ 4 := by
  have hw : l2_normalize ![(-1 : ℝ)] = ![(-1 : ℝ)] := by
    have hd : dotF ![(-1 : ℝ)] ![(-1 : ℝ)] = 1 := by
      norm_num [dotF, Fin.sum_univ_one]
    funext i
    unfold l2_normalize
    rw [hd, max_eq_left (by norm_num [l2eps]), Real.sqrt_one]
    fin_cases i
    norm_num
  have hassem : assembleSample (0 : ℝ) ![(-1 : ℝ)] = ![0, -1] := by
    unfold assembleSample
    rw [hw]
    have hfun : (fun i : Fin 1 =>
        Real.sqrt (max (1 - (0 : ℝ) ^ 2) 0) * (![(-1 : ℝ)]) i) = ![(-1 : ℝ)] := by
      funext i
      rw [show max (1 - (0 : ℝ) ^ 2) 0 = 1 by norm_num, Real.sqrt_one]
      norm_num
    rw [hfun]
    rfl
  have hx : l2_normalize (assembleSample (0 : ℝ) ![(-1 : ℝ)]) = ![0, -1] := by
    rw [hassem]
    have hd : dotF ![(0 : ℝ), -1] ![(0 : ℝ), -1] = 1 := by
      norm_num [dotF, Fin.sum_univ_two]
    funext i
    unfold l2_normalize
    rw [hd, max_eq_left (by norm_num [l2eps]), Real.sqrt_one]
    fin_cases i <;> norm_num
  have hrot : vmf_rotate muNearE1 ![0, -1] =
      ![-(8 * 10 ^ 19) / (10 ^ 14 + 1) ^ 2,
        -1 + 8 * 10 ^ 26 / (10 ^ 14 + 1) ^ 2] := by
    funext i
    rw [vmf_rotate_apply, l2_normalize_houseVec_muNearE1]
    have hd : dotF ![(0 : ℝ), -1]
        ![2 * 10 ^ 6 / (10 ^ 14 + 1), -(2 * 10 ^ 13) / (10 ^ 14 + 1)] =
        2 * 10 ^ 13 / (10 ^ 14 + 1) := by
      norm_num [dotF, Fin.sum_univ_two]
    rw [hd]
    fin_cases i <;> norm_num
  have hS : dotF (finishSample muNearE1 0 ![(-1 : ℝ)])
      (finishSample muNearE1 0 ![(-1 : ℝ)]) =
      64 * 10 ^ 38 / (10 ^ 14 + 1) ^ 4 +
        (1 - 8 * 10 ^ 26 / (10 ^ 14 + 1) ^ 2) ^ 2 := by
    unfold finishSample
    rw [hx, hrot]
    norm_num [dotF, Fin.sum_univ_succ, Fin.sum_univ_zero]
  refine ⟨by norm_num [dotF, muNearE1, Fin.sum_univ_two], ?_⟩
  rw [hS]
  have hlt : 64 * 10 ^ 38 / ((10 : ℝ) ^ 14 + 1) ^ 4 +
      (1 - 8 * 10 ^ 26 / ((10 : ℝ) ^ 14 + 1) ^ 2) ^ 2 < (1 - 1 / 10 ^ 4) ^ 2 := by
    norm_num
  have hsq := (Real.sqrt_lt' (show (0 : ℝ) < 1 - 1 / 10 ^ 4 by norm_num)).mpr hlt
  intro habs
  have h := (abs_le.mp habs).1
  linarith

lemma besselI_arg_zero (z : ℝ) : besselI 0 z = besselI0 z := by
  unfold besselI
  norm_num

lemma besselI_arg_one (z : ℝ) : besselI 1 z = besselI1 z := by
  unfold besselI
  norm_num

lemma besselI_arg_half (z : ℝ) :
    besselI (1/2) z = Real.sqrt (2 / (Real.pi * z)) * Real.sinh z := by
  unfold besselI
  norm_num

lemma besselI_arg_three_half (z : ℝ) :
    besselI (3/2) z =
      Real.sqrt (2 / (Real.pi * z)) * (Real.cosh z - Real.sinh z / z) := by
  unfold besselI
  norm_num

/-- For `D = 2` the code ratio of scaled Bessel values is the claimed
ratio of unscaled ones (the exponential scaling cancels). -/
lemma mean_ratio_D2 (c : ℝ) :
    bessel_i1e c / bessel_i0e c = besselI 1 c / besselI 0 c := by
  unfold bessel_i1e bessel_i0e
  rw [besselI_arg_one, besselI_arg_zero,
    mul_div_mul_right _ _ (Real.exp_ne_zero _)]

/-- For `D = 3` the code value (one recurrence step on scaled half-integer
closed forms) has the claimed ratio of true Bessel functions of orders
`3/2` and `1/2`. -/
lemma mean_ratio_D3 (c : ℝ) (hc : 0 < c) :
    (Real.sqrt (2 / Real.pi) * coshe c * (Real.sqrt c)⁻¹ -
        1 * (Real.sqrt (2 / Real.pi) * sinhe c * (Real.sqrt c)⁻¹) / c) /
      (Real.sqrt (2 / Real.pi) * sinhe c * (Real.sqrt c)⁻¹) =
    besselI (3/2) c / besselI (1/2) c := by
  have hsinh : 0 < Real.sinh c := Real.sinh_pos_iff.mpr hc
  have hsq2 : 0 < Real.sqrt (2 / Real.pi) := Real.sqrt_pos.mpr (by positivity)
  have hsqc : 0 < Real.sqrt c := Real.sqrt_pos.mpr hc
  rw [besselI_arg_three_half, besselI_arg_half,
    show (2 / (Real.pi * c) : ℝ) = (2 / Real.pi) / c from (div_div 2 Real.pi c).symm,
    Real.sqrt_div (by positivity : (0 : ℝ) ≤ 2 / Real.pi),
    sinhe_eq_of_pos hc, coshe_eq_of_pos hc]
  field_simp
  ring

/-- Claim C2, counterexample: for `D = 4` (likewise `D = 5`), `mean()`
does not succeed: the Bessel evaluator refuses the order
`D/2 = 2 >= 2` with a `ValueError`. -/
theorem claim_C2_counterexample :
    vmf_mean [1, 0, 0, 0] 1 =
      .error "Evaluating bessel_i by recurrence becomes imprecise for large v" := by
  have hb : ∀ z : ℝ, bessel_ive ((([1, 0, 0, 0] : List ℝ).length : ℚ)/2) z =
      .error "Evaluating bessel_i by recurrence becomes imprecise for large v" := by
    intro z
    rw [show ((([1, 0, 0, 0] : List ℝ).length : ℚ)/2) = 2 by norm_num,
      bessel_ive.eq_def]
    norm_num
  unfold vmf_mean
  simp only []
  rw [hb]
  rfl

/-- Claim C2, amended: for `D = 2` and `D = 3`, `mean()` returns the mean
direction scaled by `I_(D/2)(kappa) / I_(D/2-1)(kappa)` for positive
concentration and the zero vector at `kappa = 0`; for `D = 4` and `D = 5`
it raises instead of succeeding, because the Bessel evaluator refuses
orders `>= 2`. -/
theorem claim_C2_amended (mean_direction : List ℝ) (concentration : ℝ) :
    ((mean_direction.length = 2 ∨ mean_direction.length = 3) →
      0 < concentration →
      vmf_mean mean_direction concentration =
        .ok (mean_direction.map (fun m => m *
          (besselI ((mean_direction.length : ℚ)/2) concentration /
            besselI ((mean_direction.length : ℚ)/2 - 1) concentration)))) ∧
    ((mean_direction.length = 2 ∨ mean_direction.length = 3) →
      concentration = 0 →
      vmf_mean mean_direction concentration =
        .ok (mean_direction.map (fun _ => 0))) ∧
    ((mean_direction.length = 4 ∨ mean_direction.length = 5) →
      vmf_mean mean_direction concentration =
        .error "Evaluating bessel_i by recurrence becomes imprecise for large v") := by
  refine ⟨?_, ?_, ?_⟩
  · rintro (hlen | hlen) hk
    · unfold vmf_mean
      simp only []
      rw [hlen, show (((2 : ℕ) : ℚ))/2 = 1 by norm_num,
        show ((1 : ℚ) - 1) = 0 by norm_num, bessel_ive_1, bessel_ive_0]
      simp only [okBind, if_pos hk]
      rw [mean_ratio_D2]
      rfl
    · unfold vmf_mean
      simp only []
      rw [hlen, show (((3 : ℕ) : ℚ))/2 = 3/2 by norm_num,
        show ((3/2 : ℚ) - 1) = 1/2 by norm_num, bessel_ive_three_half,
        bessel_ive_half]
      simp only [okBind, if_pos hk]
      rw [mean_ratio_D3 concentration hk]
      rfl
  · rintro (hlen | hlen) hk <;> subst hk
    · unfold vmf_mean
      simp only []
      rw [hlen, show (((2 : ℕ) : ℚ))/2 = 1 by norm_num,
        show ((1 : ℚ) - 1) = 0 by norm_num, bessel_ive_1, bessel_ive_0]
      simp only [okBind, if_neg (lt_irrefl (0 : ℝ))]
      rfl
    · unfold vmf_mean
      simp only []
      rw [hlen, show (((3 : ℕ) : ℚ))/2 = 3/2 by norm_num,
        show ((3/2 : ℚ) - 1) = 1/2 by norm_num, bessel_ive_three_half,
        bessel_ive_half]
      simp only [okBind, if_neg (lt_irrefl (0 : ℝ))]
      rfl
  · rintro (hlen | hlen)
    · unfold vmf_mean
      simp only []
      rw [hlen, show (((4 : ℕ) : ℚ))/2 = 2 by norm_num, bessel_ive.eq_def]
      norm_num
    · unfold vmf_mean
      simp only []
      rw [hlen, show (((5 : ℕ) : ℚ))/2 = 5/2 by norm_num, bessel_ive.eq_def]
      norm_num

theorem claim_C2_amended_witness :
    vmf_mean [0, 1] 1 =
      .ok ([0, 1].map (fun m => m * (besselI 1 1 / besselI 0 1))) ∧
    vmf_mean [0, 1, 0] 0 = .ok ([0, 1, 0].map (fun _ => 0)) ∧
    vmf_mean [1, 0, 0, 0, 0] 2 =
      .error "Evaluating bessel_i by recurrence becomes imprecise for large v" := by
  refine ⟨?_, ?_, ?_⟩
  · have h := (claim_C2_amended [0, 1] 1).1 (Or.inl (by norm_num)) (by norm_num)
    simpa using h
  · exact (claim_C2_amended [0, 1, 0] 0).2.1 (Or.inr (by norm_num)) rfl
  · exact (claim_C2_amended [1, 0, 0, 0, 0] 2).2.2 (Or.inr (by norm_num))

end VonMisesFisher
